import Mathlib

/-!
Verification of the persona-registry core of `git_switch.py`.

The program keeps a registry of git "personas" (commit author name, email,
SSH key path) keyed by name, with a nullable current-persona pointer,
persisted as JSON.  This file gives a shallow embedding of that registry:

* Python `dict` is embedded as an insertion-ordered association list
  (`List (String × Persona)`), with `dictGet`, `dictSet` and `dictErase`
  mirroring `d[k]`, `d[k] = v` (update in place, insert at end) and
  `del d[k]`.
* Python exceptions (`KeyError`, `ValueError`) become the `Err` type and
  fallible operations return `Except Err _`; an operation that raises
  before mutating leaves the registry unchanged, which the embedding
  expresses by returning only the error.
* `Config.current_persona` is `Option String`: the Python field holds
  either a `str` or `None`.  Python truthiness (`if not current_persona`)
  treats both `None` and `""` as "no current persona".
* JSON documents are the `Json` inductive; `json.dump(dataclasses.asdict _)`
  becomes `save`, and the `__enter__` loader becomes `load`, whose input
  `Option Json` is `none` when the file is missing or unparsable (the code
  catches every exception and resets to an empty config).  The embedding
  restricts persona field values and the current-persona value to JSON
  strings (or null for the current persona); Python would store a
  non-string value verbatim, a case no property here exercises.
-/

/-- A JSON value, as produced by `json.load` / consumed by `json.dump`.
Numbers are irrelevant to the registry format and are folded into one
constructor. -/
inductive Json where
  | null : Json
  | bool : Bool → Json
  | num : Int → Json
  | str : String → Json
  | arr : List Json → Json
  | obj : List (String × Json) → Json
deriving Repr

/-- Field lookup in a JSON object's field list (first match). -/
def jGet : List (String × Json) → String → Option Json
  | [], _ => none
  | kv :: rest, k => if kv.1 = k then some kv.2 else jGet rest k

/-- The `Persona` dataclass: four string fields. -/
structure Persona where
  persona_name : String
  commit_name : String
  email : String
  ssh_key_path : String
deriving DecidableEq, Repr

/-- The `Config` dataclass: current persona (a `str` or `None` in Python)
and the personas `dict`, embedded as an insertion-ordered association
list. -/
structure Config where
  current_persona : Option String
  personas : List (String × Persona)
deriving DecidableEq, Repr

/-- `Config(None, {})`: the state the loader resets to on any failure. -/
def emptyConfig : Config := { current_persona := none, personas := [] }

/-- Python exceptions raised by the registry operations. -/
inductive Err where
  | keyError : String → Err
  | valueError : String → Err
deriving DecidableEq, Repr

/-- `d[k]` as a total lookup: `some` the stored value, or `none`. -/
def dictGet : List (String × Persona) → String → Option Persona
  | [], _ => none
  | kv :: rest, k => if kv.1 = k then some kv.2 else dictGet rest k

/-- `d[k] = v`: update in place if `k` is present (Python dicts keep the
key's position), otherwise append at the end (insertion order). -/
def dictSet : List (String × Persona) → String → Persona →
    List (String × Persona)
  | [], k, v => [(k, v)]
  | kv :: rest, k, v =>
      if kv.1 = k then (k, v) :: rest else kv :: dictSet rest k v

/-- `del d[k]` after the key is known to exist: drop the entry. -/
def dictErase : List (String × Persona) → String → List (String × Persona)
  | [], _ => []
  | kv :: rest, k =>
      if kv.1 = k then dictErase rest k else kv :: dictErase rest k

/-- `Manager.has_persona`: `persona_name in self.config.personas`. -/
def has_persona (c : Config) (persona_name : String) : Bool :=
  (dictGet c.personas persona_name).isSome

/-- `Manager.get_persona`: `self.config.personas[persona_name]`,
raising `KeyError` when absent. -/
def get_persona (c : Config) (persona_name : String) : Except Err Persona :=
  match dictGet c.personas persona_name with
  | some p => .ok p
  | none => .error (.keyError persona_name)

/-- `Manager.set_persona`: `self.config.personas[persona.persona_name] = persona`. -/
def set_persona (c : Config) (persona : Persona) : Config :=
  { c with personas := dictSet c.personas persona.persona_name persona }

/-- One `git config` invocation issued by `switch_persona`:
`git config {--global?} {key} "{value}"`. -/
structure GitConfigWrite where
  global : Bool
  key : String
  value : String
deriving DecidableEq, Repr

/-- `Manager.switch_persona`: raises `ValueError` (state untouched) when
the name is absent; otherwise sets `current_persona` and shells out three
`git config` writes, each with the `--global` modifier iff the flag is
set. -/
def switch_persona (c : Config) (persona_name : String) (isGlobal : Bool) :
    Except Err (Config × List GitConfigWrite) :=
  match dictGet c.personas persona_name with
  | none => .error (.valueError ("Persona " ++ persona_name ++ " not found"))
  | some p =>
      .ok ({ c with current_persona := some persona_name },
        [⟨isGlobal, "user.name", p.commit_name⟩,
         ⟨isGlobal, "user.email", p.email⟩,
         ⟨isGlobal, "core.sshCommand", "ssh -i " ++ p.ssh_key_path⟩])

/-- `Manager.get_current_persona`: `if not self.config.current_persona:
return None` (both `None` and `""` are falsy), then the bare lookup
`self.config.personas[self.config.current_persona]`, which raises
`KeyError` when the pointer dangles. -/
def get_current_persona (c : Config) : Except Err (Option Persona) :=
  match c.current_persona with
  | none => .ok none
  | some n =>
      if n = "" then .ok none
      else
        match dictGet c.personas n with
        | some p => .ok (some p)
        | none => .error (.keyError n)

/-- `Manager.rename_persona`: looks up `old_name` (raising `KeyError` if
absent, state untouched), deletes it, rewrites the record's name field,
and stores it under `new_name`.  `current_persona` is not touched. -/
def rename_persona (c : Config) (old_name new_name : String) :
    Except Err Config :=
  match dictGet c.personas old_name with
  | none => .error (.keyError old_name)
  | some p =>
      .ok { c with personas := (dictSet (dictErase c.personas old_name)
        new_name { p with persona_name := new_name }) }

/-- `Manager.remove_persona`: `del self.config.personas[persona_name]`,
raising `KeyError` when absent. -/
def remove_persona (c : Config) (persona_name : String) : Except Err Config :=
  if (dictGet c.personas persona_name).isSome then
    .ok { c with personas := dictErase c.personas persona_name }
  else
    .error (.keyError persona_name)

/-- The comparator of `Manager.list_personas`:
`sorted(..., key=lambda p: p.persona_name)` compares names
lexicographically by code point, as Lean's `String` order does. -/
def personaLE (p q : Persona) : Prop :=
  p.persona_name ≤ q.persona_name

instance : DecidableRel personaLE := fun p q =>
  inferInstanceAs (Decidable (p.persona_name ≤ q.persona_name))

instance : IsTotal Persona personaLE :=
  ⟨fun p q => le_total p.persona_name q.persona_name⟩

instance : IsTrans Persona personaLE :=
  ⟨fun _ _ _ h h' => le_trans h h'⟩

/-- `Manager.list_personas`: the dict's values sorted by persona name.
Python's `sorted` is a stable sort on the name key; insertion sort
computes the same function. -/
def list_personas (c : Config) : List Persona :=
  (c.personas.map (·.2)).insertionSort personaLE

/-- `dataclasses.asdict` on a `Persona`, dataclass field order. -/
def encodePersona (p : Persona) : Json :=
  .obj [("persona_name", .str p.persona_name),
        ("commit_name", .str p.commit_name),
        ("email", .str p.email),
        ("ssh_key_path", .str p.ssh_key_path)]

/-- The serialized `current_persona` field: `None` becomes JSON null. -/
def encodeCurrent : Option String → Json
  | none => .null
  | some s => .str s

/-- `Manager.__exit__` body: `json.dump(dataclasses.asdict(self.config))`.
Top-level keys are the `Config` dataclass field names in declaration
order; the personas object keeps the dict's keys and insertion order. -/
def save (c : Config) : Json :=
  .obj [("current_persona", encodeCurrent c.current_persona),
        ("personas",
          .obj (c.personas.map (fun kp => (kp.1, encodePersona kp.2))))]

/-- Decoding one persona record: `Persona(**persona_dict)` needs exactly
the four dataclass field names (any order, no extras — otherwise
`TypeError`). -/
def decodePersona (j : Json) : Option Persona :=
  match j with
  | .obj fs =>
      match jGet fs "persona_name", jGet fs "commit_name",
            jGet fs "email", jGet fs "ssh_key_path" with
      | some (.str pn), some (.str cn), some (.str em), some (.str kp) =>
          if fs.length = 4 then some ⟨pn, cn, em, kp⟩ else none
      | _, _, _, _ => none
  | _ => none

/-- Decoding the `current_persona` field: null or a string. -/
def decodeCurrent : Json → Option (Option String)
  | .null => some none
  | .str s => some (some s)
  | _ => none

/-- Decode every persona record, failing if any one fails (the loader's
`except` clause resets the whole config on the first failure). -/
def decodePersonas : List Json → Option (List Persona)
  | [] => some []
  | j :: rest =>
      match decodePersona j, decodePersonas rest with
      | some p, some ps => some (p :: ps)
      | _, _ => none

/-- Rebuild the personas dict the way the loader does:
`self.config.personas[persona.persona_name] = persona` in file order. -/
def rebuildPersonas (ps : List Persona) : List (String × Persona) :=
  ps.foldl (fun m p => dictSet m p.persona_name p) []

/-- The body of `Manager.__enter__`'s `try`: read `current_persona` and
`personas` from the parsed object and key each record by its own
`persona_name`; any failure anywhere yields `Config(None, {})`. -/
def loadJson (j : Json) : Config :=
  match j with
  | .obj fs =>
      match jGet fs "current_persona" with
      | none => emptyConfig
      | some cj =>
          match decodeCurrent cj with
          | none => emptyConfig
          | some cur =>
              match jGet fs "personas" with
              | some (.obj pfs) =>
                  match decodePersonas (pfs.map (·.2)) with
                  | some ps =>
                      { current_persona := cur,
                        personas := rebuildPersonas ps }
                  | none => emptyConfig
              | _ => emptyConfig
  | _ => emptyConfig

/-- `Manager.__enter__`: `none` models a missing or unparsable file
(`open`/`json.load` raised); every failure path lands on `Config(None, {})`. -/
def load : Option Json → Config
  | none => emptyConfig
  | some j => loadJson j

/-- The registry invariant: every stored record's `persona_name` field
equals its dict key. -/
def KeysMatch (m : List (String × Persona)) : Prop :=
  ∀ kp ∈ m, kp.1 = kp.2.persona_name

/-- Dict keys are unique (Python map semantics). -/
def NodupKeys (m : List (String × Persona)) : Prop :=
  (m.map (·.1)).Nodup

/-- The top-level field names of a JSON object. -/
def topKeys (j : Json) : List String :=
  match j with
  | .obj fs => fs.map (·.1)
  | _ => []

/-- Field lookup on a JSON value that should be an object. -/
def objField (j : Json) (k : String) : Option Json :=
  match j with
  | .obj fs => jGet fs k
  | _ => none

/-- The key/record pairs stored under the `personas` field of a
serialized registry. -/
def personasFields (j : Json) : List (String × Json) :=
  match objField j "personas" with
  | some (.obj pfs) => pfs
  | _ => []

deriving instance DecidableEq for Except

instance (m : List (String × Persona)) : Decidable (KeysMatch m) := by
  unfold KeysMatch; infer_instance

instance (m : List (String × Persona)) : Decidable (NodupKeys m) := by
  unfold NodupKeys; infer_instance

/-! ### Association-list lemmas -/

theorem dictGet_dictSet (m : List (String × Persona)) (k j : String)
    (v : Persona) :
    dictGet (dictSet m k v) j = if j = k then some v else dictGet m j := by
  induction m with
  | nil =>
      by_cases h : j = k
      · simp [dictSet, dictGet, h]
      · have h' : ¬ (k = j) := fun hh => h hh.symm
        simp [dictSet, dictGet, h, h']
  | cons kv rest ih =>
      by_cases hk : kv.1 = k
      · by_cases hj : j = k
        · subst hj; simp [dictSet, dictGet, hk]
        · have h1 : ¬ (k = j) := fun h => hj h.symm
          have h2 : ¬ (kv.1 = j) := hk ▸ h1
          simp [dictSet, dictGet, hk, h1, h2, hj]
      · by_cases hj : kv.1 = j
        · have hjk : ¬ (j = k) := fun h => hk (hj.trans h)
          simp [dictSet, dictGet, hk, hj, hjk]
        · simp [dictSet, dictGet, hk, hj, ih]

theorem dictGet_dictErase (m : List (String × Persona)) (k j : String) :
    dictGet (dictErase m k) j = if j = k then none else dictGet m j := by
  induction m with
  | nil =>
      by_cases h : j = k <;> simp [dictErase, dictGet, h]
  | cons kv rest ih =>
      by_cases hk : kv.1 = k
      · by_cases hj : j = k
        · subst hj; simp [dictErase, dictGet, hk, ih]
        · have h3 : ¬ (k = j) := fun h => hj h.symm
          simp [dictErase, dictGet, hk, hj, h3, ih]
      · by_cases hj : kv.1 = j
        · have hjk : ¬ (j = k) := fun h => hk (hj.trans h)
          simp [dictErase, dictGet, hk, hj, hjk]
        · simp [dictErase, dictGet, hk, hj, ih]

theorem keysMatch_dictSet (m : List (String × Persona)) (v : Persona) :
    KeysMatch m → KeysMatch (dictSet m v.persona_name v) := by
  induction m with
  | nil =>
      intro _ kp hkp
      simp [dictSet] at hkp
      subst hkp; rfl
  | cons kv rest ih =>
      intro h kp hkp
      by_cases hk : kv.1 = v.persona_name
      · simp only [dictSet, if_pos hk, List.mem_cons] at hkp
        rcases hkp with h1 | h1
        · subst h1; rfl
        · exact h kp (List.mem_cons_of_mem _ h1)
      · simp only [dictSet, if_neg hk, List.mem_cons] at hkp
        rcases hkp with h1 | h1
        · subst h1; exact h _ (List.mem_cons_self _ _)
        · exact ih (fun x hx => h x (List.mem_cons_of_mem _ hx)) kp h1

theorem keysMatch_dictErase (m : List (String × Persona)) (k : String) :
    KeysMatch m → KeysMatch (dictErase m k) := by
  induction m with
  | nil => intro _ kp hkp; simp [dictErase] at hkp
  | cons kv rest ih =>
      intro h kp hkp
      by_cases hk : kv.1 = k
      · simp only [dictErase, if_pos hk] at hkp
        exact ih (fun x hx => h x (List.mem_cons_of_mem _ hx)) kp hkp
      · simp only [dictErase, if_neg hk, List.mem_cons] at hkp
        rcases hkp with h1 | h1
        · subst h1; exact h _ (List.mem_cons_self _ _)
        · exact ih (fun x hx => h x (List.mem_cons_of_mem _ hx)) kp h1

theorem dictSet_append_of_not_mem (m : List (String × Persona)) (k : String)
    (v : Persona) :
    (∀ kv ∈ m, ¬ (kv.1 = k)) → dictSet m k v = m ++ [(k, v)] := by
  induction m with
  | nil => intro _; simp [dictSet]
  | cons kv rest ih =>
      intro h
      have hk := h kv (List.mem_cons_self _ _)
      simp [dictSet, hk, ih (fun x hx => h x (List.mem_cons_of_mem _ hx))]

theorem rebuild_loop (m : List (String × Persona)) :
    ∀ acc, KeysMatch m → NodupKeys m →
    (∀ kp ∈ m, ∀ a ∈ acc, ¬ (a.1 = kp.1)) →
    List.foldl (fun a p => dictSet a p.persona_name p) acc (m.map (·.2))
      = acc ++ m := by
  induction m with
  | nil => intro acc _ _ _; simp
  | cons kv rest ih =>
      intro acc h1 h2 h3
      simp only [List.map_cons, List.foldl_cons]
      have hkey : kv.1 = kv.2.persona_name := h1 kv (List.mem_cons_self _ _)
      have hset : dictSet acc kv.2.persona_name kv.2
          = acc ++ [(kv.2.persona_name, kv.2)] := by
        refine dictSet_append_of_not_mem _ _ _ (fun a ha => ?_)
        exact hkey ▸ h3 kv (List.mem_cons_self _ _) a ha
      have hkv : (kv.2.persona_name, kv.2) = kv := by
        cases kv with
        | mk k v => simp only at hkey ⊢; rw [← hkey]
      have hnodup : NodupKeys rest := by
        have h2' := h2
        simp only [NodupKeys, List.map_cons, List.nodup_cons] at h2'
        exact h2'.2
      have hnotin : ¬ (kv.1 ∈ rest.map (·.1)) := by
        have h2' := h2
        simp only [NodupKeys, List.map_cons, List.nodup_cons] at h2'
        exact h2'.1
      rw [hset, hkv,
        ih (acc ++ [kv]) (fun x hx => h1 x (List.mem_cons_of_mem _ hx)) hnodup
          (by
            intro kp hkp a ha
            rcases List.mem_append.mp ha with h4 | h4
            · exact h3 kp (List.mem_cons_of_mem _ hkp) a h4
            · have ha2 : a = kv := by simpa using h4
              subst ha2
              intro hcontra
              exact hnotin (hcontra ▸ List.mem_map_of_mem (·.1) hkp))]
      simp

theorem decodePersona_encodePersona (p : Persona) :
    decodePersona (encodePersona p) = some p := by
  rfl

theorem decodeCurrent_encodeCurrent (cur : Option String) :
    decodeCurrent (encodeCurrent cur) = some cur := by
  cases cur <;> rfl

theorem decodePersonas_map_encode (l : List Persona) :
    decodePersonas (l.map encodePersona) = some l := by
  induction l with
  | nil => rfl
  | cons p rest ih =>
      simp [decodePersonas, decodePersona_encodePersona, ih]

theorem rebuildPersonas_eq (m : List (String × Persona)) (h1 : KeysMatch m)
    (h2 : NodupKeys m) : rebuildPersonas (m.map (·.2)) = m := by
  have := rebuild_loop m [] h1 h2 (by intro kp _ a ha; simp at ha)
  simpa [rebuildPersonas] using this

theorem load_save (c : Config) (h1 : KeysMatch c.personas)
    (h2 : NodupKeys c.personas) : load (some (save c)) = c := by
  cases c with
  | mk cur ps =>
      simp only [load, save, loadJson, jGet]
      have hmap : ((ps.map (fun kp => (kp.1, encodePersona kp.2))).map (·.2))
          = (ps.map (·.2)).map encodePersona := by
        simp [List.map_map]
      simp [decodeCurrent_encodeCurrent, hmap, decodePersonas_map_encode,
        rebuildPersonas_eq ps h1 h2]
      rw [← List.map_map, decodePersonas_map_encode]
      simp [rebuildPersonas_eq ps h1 h2]

theorem keysMatch_rebuildPersonas (ps : List Persona) :
    KeysMatch (rebuildPersonas ps) := by
  have general : ∀ (l : List Persona) (acc), KeysMatch acc →
      KeysMatch (List.foldl (fun a p => dictSet a p.persona_name p) acc l) := by
    intro l
    induction l with
    | nil => intro acc h; simpa using h
    | cons p rest ih => intro acc h; exact ih _ (keysMatch_dictSet _ _ h)
  exact general ps [] (by intro kp hkp; simp at hkp)

theorem keysMatch_load (input : Option Json) :
    KeysMatch (load input).personas := by
  have hempty : KeysMatch emptyConfig.personas := by
    intro kp hkp; simp [emptyConfig] at hkp
  cases input with
  | none => exact hempty
  | some j =>
      simp only [load]
      unfold loadJson
      repeat' split
      all_goals first
        | exact hempty
        | exact keysMatch_rebuildPersonas _

theorem load_save_current (c : Config) :
    (load (some (save c))).current_persona = c.current_persona := by
  cases c with
  | mk cur ps =>
      simp only [load, save, loadJson, jGet]
      have hmap : ((ps.map (fun kp => (kp.1, encodePersona kp.2))).map (·.2))
          = (ps.map (·.2)).map encodePersona := by
        simp [List.map_map]
      simp [decodeCurrent_encodeCurrent, hmap]
      rw [← List.map_map, decodePersonas_map_encode]

/-! ### Claims -/

/-- C1: the spec requires that when `currentPersonaName` is non-null but
names a persona absent from the mapping, `getCurrentPersona` does not
raise.  The code violates this: `get_current_persona` performs the bare
lookup `self.config.personas[self.config.current_persona]`, which raises
`KeyError` on the dangling state `Config("work", {})`.  (The CLI's own
no-subcommand branch re-checks `has_persona` on the result, showing the
no-raise contract was the intent.) -/
theorem get_current_dangling_raises :
    get_current_persona { current_persona := some "work", personas := [] }
      = .error (.keyError "work") := by
  decide

/-- C10: when `currentPersonaName` is the empty string,
`getCurrentPersona` returns null without a lookup: `""` is falsy in
Python, so `if not self.config.current_persona` returns `None` even when
a persona keyed by `""` exists. -/
theorem get_current_empty_string_none (c : Config)
    (h : c.current_persona = some "") :
    get_current_persona c = .ok none := by
  simp [get_current_persona, h]

/-- Witness for C10 at a registry that *does* contain a persona keyed by
the empty string: the lookup is still skipped. -/
theorem get_current_empty_string_none_witness :
    has_persona
      { current_persona := some "",
        personas := [("", Persona.mk "" "E" "e@x" "/ke")] } "" = true ∧
    get_current_persona
      { current_persona := some "",
        personas := [("", Persona.mk "" "E" "e@x" "/ke")] } = .ok none :=
  ⟨by decide, get_current_empty_string_none _ rfl⟩

/-- C7: removing an absent name raises (`del` raises `KeyError`), rather
than being a no-op; the failed call returns no mutated state, so the
registry is unchanged. -/
theorem remove_absent_raises (c : Config) (n : String)
    (h : dictGet c.personas n = none) :
    remove_persona c n = .error (.keyError n) := by
  simp [remove_persona, h]

/-- Witness for C7 on a nonempty registry and a missing name. -/
theorem remove_absent_raises_witness :
    remove_persona
      { current_persona := none,
        personas := [("a", Persona.mk "a" "A" "a@x" "/ka")] } "b"
      = .error (.keyError "b") :=
  remove_absent_raises _ "b" (by decide)

/-- C6: switching to an absent name raises `ValueError` (the spec's
`NotFound`) before any mutation, so the registry is unchanged; switching
to a present persona sets `current_persona` to it and issues exactly the
three `git config` writes `user.name`, `user.email` and
`core.sshCommand = "ssh -i <key path>"`, each carrying the `--global`
modifier iff the scope flag is global. -/
theorem switch_persona_spec :
    (∀ (c : Config) (n : String) (g : Bool), dictGet c.personas n = none →
      switch_persona c n g
        = .error (.valueError ("Persona " ++ n ++ " not found"))) ∧
    (∀ (c : Config) (n : String) (g : Bool) (p : Persona),
      dictGet c.personas n = some p →
      switch_persona c n g
        = .ok ({ c with current_persona := some n },
            [⟨g, "user.name", p.commit_name⟩,
             ⟨g, "user.email", p.email⟩,
             ⟨g, "core.sshCommand", "ssh -i " ++ p.ssh_key_path⟩])) := by
  constructor
  · intro c n g h; simp [switch_persona, h]
  · intro c n g p h; simp [switch_persona, h]

/-- Witness for C6: one absent-name failure, and one local-scope and one
global-scope success with the three writes spelled out. -/
theorem switch_persona_spec_witness :
    switch_persona
      { current_persona := none,
        personas := [("a", Persona.mk "a" "A" "a@x" "/ka")] } "b" false
      = .error (.valueError "Persona b not found") ∧
    switch_persona
      { current_persona := none,
        personas := [("a", Persona.mk "a" "A" "a@x" "/ka")] } "a" true
      = .ok ({ current_persona := some "a",
               personas := [("a", Persona.mk "a" "A" "a@x" "/ka")] },
          [⟨true, "user.name", "A"⟩,
           ⟨true, "user.email", "a@x"⟩,
           ⟨true, "core.sshCommand", "ssh -i /ka"⟩]) :=
  ⟨switch_persona_spec.1 _ "b" false (by decide),
   switch_persona_spec.2 _ "a" true (Persona.mk "a" "A" "a@x" "/ka")
     (by decide)⟩

/-- C8: `list_personas` returns all personas (a permutation of the
mapping's values) sorted ascending by persona name; on the
zeta/alpha/mike registry it returns alpha, mike, zeta, and on the empty
registry it returns the empty sequence. -/
theorem list_personas_sorted_by_name :
    (∀ c : Config, List.Perm (list_personas c) (c.personas.map (·.2)) ∧
      (list_personas c).Sorted personaLE) ∧
    (list_personas
      { current_persona := none,
        personas := [("zeta", Persona.mk "zeta" "Z" "z@x" "/kz"),
                     ("alpha", Persona.mk "alpha" "A" "a@x" "/ka"),
                     ("mike", Persona.mk "mike" "M" "m@x" "/km")] }).map
      (·.persona_name) = ["alpha", "mike", "zeta"] ∧
    list_personas emptyConfig = [] := by
  refine ⟨fun c => ⟨List.perm_insertionSort personaLE _,
    List.sorted_insertionSort personaLE _⟩, ?_, rfl⟩
  simp +decide [list_personas, List.insertionSort, List.orderedInsert,
    personaLE]

/-- C9: every operation that constructs or mutates the mapping — the
loader, `set_persona`, `rename_persona` and `remove_persona` — preserves
the invariant that each stored record's `persona_name` equals its key. -/
theorem registry_ops_keysMatch :
    (∀ input, KeysMatch (load input).personas) ∧
    (∀ (c : Config) (p : Persona), KeysMatch c.personas →
      KeysMatch (set_persona c p).personas) ∧
    (∀ (c : Config) (a b : String) (c' : Config), KeysMatch c.personas →
      rename_persona c a b = .ok c' → KeysMatch c'.personas) ∧
    (∀ (c : Config) (n : String) (c' : Config), KeysMatch c.personas →
      remove_persona c n = .ok c' → KeysMatch c'.personas) := by
  refine ⟨keysMatch_load, ?_, ?_, ?_⟩
  · intro c p h
    exact keysMatch_dictSet _ _ h
  · intro c a b c' h hre
    unfold rename_persona at hre
    cases hget : dictGet c.personas a with
    | none => rw [hget] at hre; exact absurd hre (by simp)
    | some p =>
        rw [hget] at hre
        cases hre
        exact keysMatch_dictSet (dictErase c.personas a)
          ⟨b, p.commit_name, p.email, p.ssh_key_path⟩
          (keysMatch_dictErase c.personas a h)
  · intro c n c' h hre
    unfold remove_persona at hre
    by_cases hx : (dictGet c.personas n).isSome
    · rw [if_pos hx] at hre
      cases hre
      exact keysMatch_dictErase _ _ h
    · rw [if_neg hx] at hre
      exact absurd hre (by simp)

/-- Witness for C9: one concrete instance of each of the four conjuncts,
with the invariant hypotheses and the `.ok` results checked by
evaluation. -/
theorem registry_ops_keysMatch_witness :
    KeysMatch (load none).personas ∧
    KeysMatch
      (set_persona emptyConfig (Persona.mk "a" "A" "a@x" "/ka")).personas ∧
    KeysMatch (Config.mk none [("b", Persona.mk "b" "A" "a@x" "/ka")]).personas ∧
    KeysMatch (Config.mk none []).personas :=
  ⟨registry_ops_keysMatch.1 none,
   registry_ops_keysMatch.2.1 emptyConfig _ (by decide),
   registry_ops_keysMatch.2.2.1
     (Config.mk none [("a", Persona.mk "a" "A" "a@x" "/ka")]) "a" "b" _
     (by decide) (by decide),
   registry_ops_keysMatch.2.2.2
     (Config.mk none [("a", Persona.mk "a" "A" "a@x" "/ka")]) "a" _
     (by decide) (by decide)⟩

/-- C5 counterexample: renaming a persona onto its own name (`a` → `a`)
deletes and reinserts the same entry, so `has_persona a` is still true
afterwards, refuting the claim's unrestricted `hasPersona(a) = false`. -/
theorem rename_same_name_cex :
    rename_persona
      (Config.mk none [("a", Persona.mk "a" "A" "a@x" "/ka")]) "a" "a"
      = .ok (Config.mk none [("a", Persona.mk "a" "A" "a@x" "/ka")]) ∧
    has_persona (Config.mk none [("a", Persona.mk "a" "A" "a@x" "/ka")]) "a"
      = true := by
  decide

/-- C5 (amended): for every registry containing a persona keyed `a` and
every `b ≠ a`, `rename_persona a b` removes key `a`, stores the record
under `b` with its name field set to `b` and all other fields unchanged,
and leaves `current_persona` untouched (so a pointer at `a` keeps naming
`a`, dangling, rather than following the rename to `b`). -/
theorem rename_preserves_content_not_pointer (c : Config) (a b : String)
    (p : Persona) (hp : dictGet c.personas a = some p) (hab : ¬ b = a) :
    ∃ c', rename_persona c a b = .ok c' ∧
      has_persona c' a = false ∧
      has_persona c' b = true ∧
      dictGet c'.personas b
        = some (Persona.mk b p.commit_name p.email p.ssh_key_path) ∧
      c'.current_persona = c.current_persona := by
  refine ⟨Config.mk c.current_persona
      (dictSet (dictErase c.personas a) b
        (Persona.mk b p.commit_name p.email p.ssh_key_path)),
    ?_, ?_, ?_, ?_, rfl⟩
  · simp [rename_persona, hp]
  · have hab' : ¬ (a = b) := fun h => hab h.symm
    simp [has_persona, dictGet_dictSet, dictGet_dictErase, hab']
  · simp [has_persona, dictGet_dictSet]
  · simp [dictGet_dictSet]

/-- Witness for the amended C5 on a two-persona registry whose current
persona is the renamed one. -/
theorem rename_preserves_content_not_pointer_witness :
    ∃ c', rename_persona
      (Config.mk (some "a") [("a", Persona.mk "a" "A" "a@x" "/ka"),
                             ("z", Persona.mk "z" "Z" "z@x" "/kz")]) "a" "b"
      = .ok c' ∧
      has_persona c' "a" = false ∧
      has_persona c' "b" = true ∧
      dictGet c'.personas "b" = some (Persona.mk "b" "A" "a@x" "/ka") ∧
      c'.current_persona = (Config.mk (some "a")
        [("a", Persona.mk "a" "A" "a@x" "/ka"),
         ("z", Persona.mk "z" "Z" "z@x" "/kz")]).current_persona :=
  rename_preserves_content_not_pointer _ "a" "b"
    (Persona.mk "a" "A" "a@x" "/ka") (by decide) (by decide)

/-- C3: saving any valid registry (unique keys, each record's name field
equal to its key) and loading the saved document restores the registry
exactly: the same persona set and the same current-persona name,
including the empty registry. -/
theorem save_then_load_roundTrip (c : Config) (h1 : KeysMatch c.personas)
    (h2 : NodupKeys c.personas) : load (some (save c)) = c :=
  load_save c h1 h2

/-- Witness for C3 on a two-persona registry with a current persona
(`load (some (save _))` evaluates back to the registry itself). -/
theorem save_then_load_roundTrip_witness :
    load (some (save (Config.mk (some "b")
      [("a", Persona.mk "a" "A" "a@x" "/ka"),
       ("b", Persona.mk "b" "B" "b@x" "/kb")])))
      = Config.mk (some "b")
          [("a", Persona.mk "a" "A" "a@x" "/ka"),
           ("b", Persona.mk "b" "B" "b@x" "/kb")] :=
  save_then_load_roundTrip _ (by decide) (by decide)

/-- C2 counterexample: the serializer emits the dataclass field name
`current_persona`, not the claimed `currentPersona` — already on the
empty registry the top-level keys differ from the claimed pair. -/
theorem save_fieldNames_cex :
    ¬ (topKeys (save emptyConfig) = ["currentPersona", "personas"]) := by
  decide

/-- C2 (amended): the two top-level fields are named exactly
`current_persona` and `personas`; the loader reads the same names (so
the names round-trip and the current persona survives a save/load); and
under `personas` each record is keyed by its own nested `persona_name`
value. -/
theorem save_fieldNames_snakeCase (c : Config) (h : KeysMatch c.personas) :
    topKeys (save c) = ["current_persona", "personas"] ∧
    objField (save c) "current_persona"
      = some (encodeCurrent c.current_persona) ∧
    (load (some (save c))).current_persona = c.current_persona ∧
    personasFields (save c)
      = c.personas.map (fun kp => (kp.2.persona_name, encodePersona kp.2)) := by
  refine ⟨rfl, ?_, load_save_current c, ?_⟩
  · simp [save, objField, jGet]
  · have hpf : personasFields (save c)
        = c.personas.map (fun kp => (kp.1, encodePersona kp.2)) := by
      simp [save, personasFields, objField, jGet]
    rw [hpf]
    refine List.map_congr_left (fun kp hkp => ?_)
    rw [h kp hkp]

/-- Witness for the amended C2 on a one-persona registry. -/
theorem save_fieldNames_snakeCase_witness :
    topKeys (save (Config.mk (some "a")
        [("a", Persona.mk "a" "A" "a@x" "/ka")]))
      = ["current_persona", "personas"] ∧
    objField (save (Config.mk (some "a")
        [("a", Persona.mk "a" "A" "a@x" "/ka")])) "current_persona"
      = some (encodeCurrent (some "a")) ∧
    (load (some (save (Config.mk (some "a")
        [("a", Persona.mk "a" "A" "a@x" "/ka")])))).current_persona
      = some "a" ∧
    personasFields (save (Config.mk (some "a")
        [("a", Persona.mk "a" "A" "a@x" "/ka")]))
      = [("a", encodePersona (Persona.mk "a" "A" "a@x" "/ka"))] :=
  save_fieldNames_snakeCase
    (Config.mk (some "a") [("a", Persona.mk "a" "A" "a@x" "/ka")])
    (by decide)

/-- C4 counterexample: the loader reads the field `current_persona`, not
`currentPersona`: a JSON object lacking `currentPersona` (but carrying
`current_persona` and `personas`) loads as a non-empty registry, so the
claim's recovery condition names the wrong field. -/
theorem load_missing_camelCase_field_cex :
    jGet [("current_persona", Json.str "work"), ("personas", Json.obj [])]
      "currentPersona" = none ∧
    ¬ (load (some (Json.obj [("current_persona", Json.str "work"),
        ("personas", Json.obj [])])) = emptyConfig) := by
  constructor
  · rfl
  · decide

/-- C4 (amended): a missing or unparsable file, a non-object JSON
document, or a JSON object lacking `current_persona` or `personas` (the
field names the loader actually reads) loads as the empty registry —
`personas = {}`, `currentPersonaName = null` — without raising. -/
theorem load_failure_resets :
    load none = emptyConfig ∧
    (∀ j : Json, (∀ fs, ¬ (j = Json.obj fs)) →
      load (some j) = emptyConfig) ∧
    (∀ fs, jGet fs "current_persona" = none ∨ jGet fs "personas" = none →
      load (some (Json.obj fs)) = emptyConfig) := by
  refine ⟨rfl, ?_, ?_⟩
  · intro j hj
    cases j with
    | obj fs => exact absurd rfl (hj fs)
    | null => rfl
    | bool b => rfl
    | num n => rfl
    | str s => rfl
    | arr xs => rfl
  · intro fs hfs
    rcases hfs with hc | hp
    · simp [load, loadJson, hc]
    · cases hcur : jGet fs "current_persona" with
      | none => simp [load, loadJson, hcur]
      | some cj =>
          cases hdec : decodeCurrent cj with
          | none => simp [load, loadJson, hcur, hdec]
          | some cur => simp [load, loadJson, hcur, hdec, hp]

/-- Witness for the amended C4: a non-object document and an object
missing `current_persona` both load as the empty registry. -/
theorem load_failure_resets_witness :
    load (some (Json.str "junk")) = emptyConfig ∧
    load (some (Json.obj [("personas", Json.obj [])])) = emptyConfig :=
  ⟨load_failure_resets.2.1 (Json.str "junk") (fun _ h => Json.noConfusion h),
   load_failure_resets.2.2 [("personas", Json.obj [])] (Or.inl rfl)⟩
